import Mathlib

/-!
# Verification of the Text Quality Analyzer metrics pipeline

Shallow embedding of the metrics-resolution pipeline of the Obsidian
"Text Quality Analyzer" plugin (`main.js`) and its standalone analysis
backend (`server.js`).

Conventions of the embedding:
* JavaScript strings are modelled as `List Char` (`Str`).
* JavaScript numbers are modelled as exact rationals `ℚ`.  `Math.round`
  is `jsRound` (round half towards positive infinity) and the pervasive
  `Math.round(x * 1000) / 1000` is `round3`.
* `Math.sqrt` has no exact rational counterpart; every function that
  uses it is parameterised by a square-root function `sqrtF : ℚ → ℚ`.
  All verified properties hold for an arbitrary `sqrtF`.
* The Unicode character classes used by the source's regular
  expressions (`\s`, `\p{L}`, `\p{N}`, `[А-Яа-яЁё]`) are modelled for
  the scripts the plugin works with (Latin, Cyrillic, digits).
* Fallible or absent JavaScript values (`null`, `undefined`, `NaN`
  results of `normalizeScore`) are modelled with `Option`.
-/

namespace TQA

/-- JavaScript strings are modelled as lists of characters. -/
abbrev Str := List Char

/-- The whitespace class of the regular expression `\s` (the code splits
words with `/\s+/`): space, tab, line/page breaks and the common Unicode
space characters. -/
def isWs (c : Char) : Bool :=
  c = ' ' || c = '\t' || c = '\n' || c = '\r' || c = '\x0b' || c = '\x0c' ||
  c = ' ' || c = ' ' || c = ' ' || c = '　' || c = '﻿'

/-- A Cyrillic letter as matched by `[А-Яа-яЁё]` in
`extractRussianWords`: the ranges А–Я (0x410–0x42F), а–я (0x430–0x44F)
plus Ё (0x401) and ё (0x451). -/
def isRussianLetter (c : Char) : Bool :=
  (0x410 ≤ c.toNat && c.toNat ≤ 0x44F) || c.toNat = 0x401 || c.toNat = 0x451

/-- The character class `[^\p{L}\p{N}]` is removed from each token by
`computeHeuristicMetrics`; its complement (a letter or digit) is
modelled for the scripts the plugin handles: ASCII letters and digits
and Cyrillic letters. -/
def isWordChar (c : Char) : Bool :=
  c.isAlphanum || isRussianLetter c

/-- JavaScript `toLowerCase`, modelled for ASCII and Cyrillic: A–Z and
А–Я are shifted to their lowercase forms, Ё becomes ё, everything else
is unchanged. -/
def jsToLower (c : Char) : Char :=
  if c.isUpper then c.toLower
  else if 0x410 ≤ c.toNat ∧ c.toNat ≤ 0x42F then Char.ofNat (c.toNat + 0x20)
  else if c.toNat = 0x401 then Char.ofNat 0x451
  else c

/-- Sentence-terminal punctuation, the class `[.!?…]` of
`splitSentencesRussian`. -/
def isSentenceTerminal (c : Char) : Bool :=
  c = '.' || c = '!' || c = '?' || c = '…'

/-- The Russian vowels `аеёиоуыэюя` of `countRussianSyllables`. -/
def isRussianVowel (c : Char) : Bool :=
  c = 'а' || c = 'е' || c = 'ё' || c = 'и' || c = 'о' || c = 'у' ||
  c = 'ы' || c = 'э' || c = 'ю' || c = 'я'

/-- JavaScript `Math.round`: round half towards positive infinity. -/
def jsRound (q : ℚ) : ℤ := ⌊q + 1/2⌋

/-- The source's rounding idiom `Math.round(x * 1000) / 1000`. -/
def round3 (q : ℚ) : ℚ := (jsRound (q * 1000) : ℚ) / 1000

/-- JavaScript `String.prototype.trim` restricted to the modelled
whitespace class. -/
def trimWs (s : Str) : Str :=
  ((s.dropWhile isWs).reverse.dropWhile isWs).reverse

/-- `text.replace(/\r\n/g, '\n')`. -/
def normalizeNewlines : Str → Str
  | [] => []
  | '\r' :: '\n' :: rest => '\n' :: normalizeNewlines rest
  | c :: rest => c :: normalizeNewlines rest

/-- `para.split(/\s+/).filter((w) => w.length > 0)`: splitting at every
whitespace character and dropping empty fragments yields exactly the
maximal whitespace-free runs, which is what splitting on `/\s+/` plus
the `filter` produces. -/
def wordsOf (s : Str) : List Str :=
  (s.splitOnP isWs).filter (fun w => w.length > 0)

/-- Cleaning of one token in `computeHeuristicMetrics`:
`w.replace(/[^\p{L}\p{N}]+/gu, '').toLowerCase().trim()`.  The replace
removes every non letter/digit character (whitespace included), so the
final `trim` operates on a whitespace-free string; it is applied anyway
for faithfulness. -/
def cleanToken (w : Str) : Str :=
  trimWs ((w.filter isWordChar).map jsToLower)

/-- `str.toLowerCase().split(sep).length - 1` counts non-overlapping,
leftmost-first occurrences of `sep` in the string; this function counts
them directly (only called with a non-empty separator). -/
def countOccurrences (pat : Str) : Str → Nat
  | [] => 0
  | c :: rest =>
    if pat ≠ [] ∧ pat.isPrefixOf (c :: rest) then
      countOccurrences pat ((c :: rest).drop pat.length) + 1
    else
      countOccurrences pat rest
termination_by s => s.length
decreasing_by
  · simp only [List.length_drop, List.length_cons]
    have hp : pat.length > 0 := List.length_pos.mpr (by tauto)
    omega
  · simp [Nat.lt_succ_self]

/-- `extractRussianWords`: `text.match(/[А-Яа-яЁё]{2,}/gu)` returns the
maximal runs of Russian letters of length at least 2 (or `[]`). -/
def extractRussianWords (text : Str) : List Str :=
  (text.splitOnP (fun c => !isRussianLetter c)).filter (fun w => w.length ≥ 2)

/-- `splitSentencesRussian`: normalise line endings, split on
sentence-terminal punctuation, trim, drop empty fragments.  Splitting at
every terminal character and trimming is equivalent to splitting on the
source's `/[.!?…]+[\s\n]*/u`. -/
def splitSentencesRussian (text : Str) : List Str :=
  if text.isEmpty then []
  else
    (((normalizeNewlines text).splitOnP isSentenceTerminal).map trimWs).filter
      (fun s => !s.isEmpty)

/-- `countRussianSyllables`: the number of Russian vowel letters of the
lowercased word, with a minimum of 1. -/
def countRussianSyllables (word : Str) : Nat :=
  let count := ((word.map jsToLower).filter isRussianVowel).length
  if count > 0 then count else 1

/-- Result record of `russianSmogIndex`: `{ value, valid }` where
`value = null` is `none`. -/
structure SmogInfo where
  value : Option ℚ
  valid : Bool
deriving DecidableEq, Repr

/-- `russianSmogIndex`.  `Math.sqrt` is abstracted by `sqrtF`. -/
def russianSmogIndex (sqrtF : ℚ → ℚ) (text : Str) : SmogInfo :=
  if (trimWs text).isEmpty then ⟨none, false⟩
  else
    let sentences := splitSentencesRussian text
    let numSentences := sentences.length
    let isValid : Bool := numSentences ≥ 3
    if numSentences = 0 then ⟨none, false⟩
    else
      let words := extractRussianWords text
      if words.length = 0 then ⟨none, isValid⟩
      else
        let polysyllableCount :=
          (words.filter (fun w => countRussianSyllables w ≥ 3)).length
        let smogRaw : ℚ := (polysyllableCount : ℚ) * (30 / (numSentences : ℚ))
        let smog : ℚ := 1.043 * sqrtF smogRaw + 3.1291
        ⟨some (round3 smog), isValid⟩

/-- `russianLixIndex`; `null` is `none`. -/
def russianLixIndex (text : Str) : Option ℚ :=
  if (trimWs text).isEmpty then none
  else
    let sentences := splitSentencesRussian text
    let numSentences := sentences.length
    if numSentences = 0 then none
    else
      let words := extractRussianWords text
      let numWords := words.length
      if numWords = 0 then none
      else
        let numLongWords := (words.filter (fun w => w.length > 6)).length
        some (round3 ((numWords : ℚ) / (numSentences : ℚ) +
          100 * ((numLongWords : ℚ) / (numWords : ℚ))))

/-- `normalizeScore(value, min, max)`: `NaN` (for `null`/`undefined`
input) is modelled by `none`; otherwise the value is clipped into
`[lo, hi]`, a degenerate range yields `0`, and the result is rounded to
three decimals. -/
def normalizeScore (value : Option ℚ) (lo hi : ℚ) : Option ℚ :=
  match value with
  | none => none
  | some v =>
    let clipped := min (max v lo) hi
    if hi = lo then some 0
    else some (round3 ((clipped - lo) / (hi - lo)))

/-- `calculateComplexity(lix, smog, smogValid)`: average of whichever
normalized sub-scores are defined; `0` when neither is. -/
def calculateComplexity (lix : Option ℚ) (smog : Option ℚ) (smogValid : Bool) : ℚ :=
  let nLix := normalizeScore lix 0 80
  let nSmog := if smogValid then normalizeScore smog 3 20 else none
  let vals := nLix.toList ++ nSmog.toList
  if vals.isEmpty then 0
  else round3 (vals.sum / (vals.length : ℚ))

/-- A metric record as produced by `computeHeuristicMetrics` (no `role`
field yet). -/
structure HeurMetric where
  snr : ℚ
  complexity : ℚ
  topic : ℚ
deriving DecidableEq, Repr

/-- The body of the `for (const para of paragraphs)` loop of
`computeHeuristicMetrics`, for one paragraph.  `topicLower` is the
already-lowercased topic. -/
def heurOne (sqrtF : ℚ → ℚ) (topicLower : Str) (para : Str) : HeurMetric :=
  let words := wordsOf para
  let cleaned := words.map cleanToken
  let uniq := (cleaned.filter (fun w => w.length > 0)).dedup
  let snr : ℚ := if words.length > 0 then (uniq.length : ℚ) / (words.length : ℚ) else 0
  let lix := russianLixIndex para
  let smogInfo := russianSmogIndex sqrtF para
  let complexity := calculateComplexity lix smogInfo.value smogInfo.valid
  let topicScore : ℚ :=
    if topicLower.length > 0 then
      let occur := countOccurrences topicLower (para.map jsToLower)
      if occur > 0 then min 1 ((occur : ℚ) / 3) else 0
    else 0
  ⟨snr, complexity, topicScore⟩

/-- `computeHeuristicMetrics(paragraphs, topic)` from `main.js`. -/
def computeHeuristicMetrics (sqrtF : ℚ → ℚ) (paragraphs : List Str) (topic : Str) :
    List HeurMetric :=
  paragraphs.map (heurOne sqrtF (topic.map jsToLower))

/-! ### Bounds of the rounding and normalisation helpers -/

lemma round3_nonneg {q : ℚ} (h : 0 ≤ q) : 0 ≤ round3 q := by
  unfold round3 jsRound
  have h1 : (0 : ℤ) ≤ ⌊q * 1000 + 1/2⌋ := by
    apply Int.floor_nonneg.mpr
    have : (0 : ℚ) ≤ q * 1000 := by positivity
    linarith
  have h2 : (0 : ℚ) ≤ (⌊q * 1000 + 1/2⌋ : ℚ) := by exact_mod_cast h1
  positivity

lemma round3_le_one {q : ℚ} (h : q ≤ 1) : round3 q ≤ 1 := by
  unfold round3 jsRound
  have h2 : ⌊(2001 : ℚ)/2⌋ = 1000 := by
    rw [Int.floor_eq_iff]
    norm_num
  have h1 : ⌊q * 1000 + 1/2⌋ ≤ ⌊(2001 : ℚ)/2⌋ := by
    apply Int.floor_le_floor
    nlinarith
  have h3 : ((⌊q * 1000 + 1/2⌋ : ℤ) : ℚ) ≤ 1000 := by
    rw [h2] at h1; exact_mod_cast h1
  linarith

lemma normalizeScore_bounds {v lo hi r : ℚ} (hle : lo ≤ hi)
    (h : normalizeScore (some v) lo hi = some r) : 0 ≤ r ∧ r ≤ 1 := by
  have h' : (if hi = lo then some (0 : ℚ)
      else some (round3 ((min (max v lo) hi - lo) / (hi - lo)))) = some r := h
  by_cases heq : hi = lo
  · rw [if_pos heq] at h'
    cases h'
    norm_num
  · rw [if_neg heq] at h'
    have hlt : lo < hi := lt_of_le_of_ne hle (fun a => heq a.symm)
    have h1 : lo ≤ min (max v lo) hi := le_min (le_max_right v lo) hle
    have h2 : min (max v lo) hi ≤ hi := min_le_right _ _
    have ht0 : 0 ≤ (min (max v lo) hi - lo) / (hi - lo) :=
      div_nonneg (by linarith) (by linarith)
    have ht1 : (min (max v lo) hi - lo) / (hi - lo) ≤ 1 := by
      rw [div_le_one (by linarith)]; linarith
    cases h'
    exact ⟨round3_nonneg ht0, round3_le_one ht1⟩

lemma normalizeScore_toList_bounds {o : Option ℚ} {lo hi x : ℚ} (hle : lo ≤ hi)
    (hx : x ∈ (normalizeScore o lo hi).toList) : 0 ≤ x ∧ x ≤ 1 := by
  cases o with
  | none => simp [normalizeScore] at hx
  | some v =>
    cases hns : normalizeScore (some v) lo hi with
    | none => rw [hns] at hx; simp at hx
    | some r =>
      rw [hns] at hx
      simp only [Option.toList_some, List.mem_singleton] at hx
      subst hx
      exact normalizeScore_bounds hle hns

lemma list_sum_bounds {l : List ℚ} (h : ∀ x ∈ l, 0 ≤ x ∧ x ≤ 1) :
    0 ≤ l.sum ∧ l.sum ≤ (l.length : ℚ) := by
  induction l with
  | nil => simp
  | cons a t ih =>
    have ha := h a (by simp)
    have ht := ih (fun x hx => h x (by simp [hx]))
    simp only [List.sum_cons, List.length_cons]
    constructor
    · linarith [ht.1]
    · push_cast
      linarith [ht.2]

lemma avg_round3_bounds {vals : List ℚ} (hb : ∀ x ∈ vals, 0 ≤ x ∧ x ≤ 1) :
    0 ≤ (if vals.isEmpty then (0 : ℚ) else round3 (vals.sum / (vals.length : ℚ))) ∧
      (if vals.isEmpty then (0 : ℚ) else round3 (vals.sum / (vals.length : ℚ))) ≤ 1 := by
  by_cases hemp : vals.isEmpty
  · simp [hemp]
  · simp only [hemp, if_false, Bool.false_eq_true]
    have hne : vals ≠ [] := by
      intro h; rw [h] at hemp; simp at hemp
    have hlen : (0 : ℚ) < (vals.length : ℚ) := by
      have : 0 < vals.length := List.length_pos.mpr hne
      exact_mod_cast this
    have hsum := list_sum_bounds hb
    have h0 : 0 ≤ vals.sum / (vals.length : ℚ) := div_nonneg hsum.1 (le_of_lt hlen)
    have h1 : vals.sum / (vals.length : ℚ) ≤ 1 := by
      rw [div_le_one hlen]; exact hsum.2
    exact ⟨round3_nonneg h0, round3_le_one h1⟩

lemma calculateComplexity_bounds (lix smog : Option ℚ) (smogValid : Bool) :
    0 ≤ calculateComplexity lix smog smogValid ∧
      calculateComplexity lix smog smogValid ≤ 1 := by
  have hdef : calculateComplexity lix smog smogValid =
      (if ((normalizeScore lix 0 80).toList ++
            (if smogValid then normalizeScore smog 3 20 else none).toList).isEmpty then (0 : ℚ)
       else round3 (((normalizeScore lix 0 80).toList ++
            (if smogValid then normalizeScore smog 3 20 else none).toList).sum /
          ((((normalizeScore lix 0 80).toList ++
            (if smogValid then normalizeScore smog 3 20 else none).toList)).length : ℚ))) := rfl
  rw [hdef]
  apply avg_round3_bounds
  intro x hx
  rcases List.mem_append.mp hx with h | h
  · exact normalizeScore_toList_bounds (by norm_num) h
  · cases smogValid with
    | false => simp at h
    | true =>
      rw [if_pos rfl] at h
      exact normalizeScore_toList_bounds (by norm_num) h

lemma heurOne_snr_bounds (sqrtF : ℚ → ℚ) (topicLower para : Str) :
    0 ≤ (heurOne sqrtF topicLower para).snr ∧ (heurOne sqrtF topicLower para).snr ≤ 1 := by
  have hdef : (heurOne sqrtF topicLower para).snr =
      (if (wordsOf para).length > 0 then
        (((((wordsOf para).map cleanToken).filter (fun w => w.length > 0)).dedup.length : ℚ)
          / ((wordsOf para).length : ℚ))
       else 0) := rfl
  rw [hdef]
  by_cases hpos : (wordsOf para).length > 0
  · rw [if_pos hpos]
    have hden : (0 : ℚ) < ((wordsOf para).length : ℚ) := by exact_mod_cast hpos
    have hle : ((((wordsOf para).map cleanToken).filter (fun w => w.length > 0)).dedup).length ≤
        (wordsOf para).length := by
      calc ((((wordsOf para).map cleanToken).filter (fun w => w.length > 0)).dedup).length
          ≤ (((wordsOf para).map cleanToken).filter (fun w => w.length > 0)).length :=
            (List.dedup_sublist _).length_le
        _ ≤ ((wordsOf para).map cleanToken).length := List.length_filter_le _ _
        _ = (wordsOf para).length := by simp
    constructor
    · positivity
    · rw [div_le_one hden]; exact_mod_cast hle
  · rw [if_neg hpos]
    norm_num

lemma heurOne_complexity_bounds (sqrtF : ℚ → ℚ) (topicLower para : Str) :
    0 ≤ (heurOne sqrtF topicLower para).complexity ∧
      (heurOne sqrtF topicLower para).complexity ≤ 1 := by
  have hdef : (heurOne sqrtF topicLower para).complexity =
      calculateComplexity (russianLixIndex para) (russianSmogIndex sqrtF para).value
        (russianSmogIndex sqrtF para).valid := rfl
  rw [hdef]
  exact calculateComplexity_bounds _ _ _

lemma heurOne_topic_bounds (sqrtF : ℚ → ℚ) (topicLower para : Str) :
    0 ≤ (heurOne sqrtF topicLower para).topic ∧ (heurOne sqrtF topicLower para).topic ≤ 1 := by
  have hdef : (heurOne sqrtF topicLower para).topic =
      (if topicLower.length > 0 then
        (if countOccurrences topicLower (para.map jsToLower) > 0 then
          min 1 ((countOccurrences topicLower (para.map jsToLower) : ℚ) / 3)
         else 0)
       else 0) := rfl
  rw [hdef]
  by_cases htl : topicLower.length > 0
  · rw [if_pos htl]
    by_cases hocc : countOccurrences topicLower (para.map jsToLower) > 0
    · rw [if_pos hocc]
      constructor
      · apply le_min (by norm_num)
        positivity
      · exact min_le_left _ _
    · rw [if_neg hocc]; norm_num
  · rw [if_neg htl]; norm_num

/-! ### The metrics resolver (`getMetrics`) and its backend adapters -/

/-- A full `Metric` record: `{ snr, complexity, topic, role }`. -/
structure Metric where
  snr : ℚ
  complexity : ℚ
  topic : ℚ
  role : Str
deriving DecidableEq, Repr

/-- One element of the JSON array returned by the HTTP scoring service.
A field holds `some v` exactly when `typeof item.field === 'number'`
(`none` models a missing or non-numeric field); `role` is `none` when
missing or empty (both are falsy for `item.role || ''`). -/
structure HttpItem where
  snr : Option ℚ
  complexity : Option ℚ
  topic : Option ℚ
  role : Option Str
deriving DecidableEq, Repr

/-- The mapping applied by `tryHttpEndpoint` to each response item:
non-numeric fields default to `0`, a falsy role defaults to `''`. -/
def httpItemToMetric (item : HttpItem) : Metric :=
  { snr := item.snr.getD 0
    complexity := item.complexity.getD 0
    topic := item.topic.getD 0
    role := item.role.getD [] }

/-- Outcome of the `fetch` call of `tryHttpEndpoint`: the call can throw
(network failure), or return a response with status flag `res.ok` and a
JSON body that either is an array of metric-shaped items (`some items`)
or is not an array (`none`). -/
inductive FetchOutcome where
  | thrown : FetchOutcome
  | resp (ok : Bool) (data : Option (List HttpItem)) : FetchOutcome
deriving DecidableEq, Repr

/-- `tryHttpEndpoint` from `getMetrics` in `main.js`: `null` when the
endpoint is not configured, the call throws, the status is not ok, the
body is not an array, or the length differs from the paragraph count;
otherwise the mapped item array. -/
def tryHttpEndpoint (httpEndpoint : String) (outcome : FetchOutcome)
    (numParagraphs : Nat) : Option (List Metric) :=
  if httpEndpoint.isEmpty then none
  else
    match outcome with
    | .thrown => none
    | .resp ok data =>
      if ok then
        match data with
        | some items =>
          if items.length = numParagraphs then some (items.map httpItemToMetric) else none
        | none => none
      else none

/-- `tryOpenAi` from `getMetrics` in `main.js`: `null` when no API key
is configured (before any remote call is attempted); otherwise the whole
body runs inside `try { ... } catch { return null }`, so its outcome is
either a metrics array or `null` — modelled by the `callOutcome`
parameter (`none` = a thrown error was caught). -/
def tryOpenAi (apiKey : String) (callOutcome : Option (List Metric)) :
    Option (List Metric) :=
  if apiKey.isEmpty then none else callOutcome

/-- The `computeHeuristic` closure of `getMetrics`: heuristic metrics
with an empty `role` added. -/
def computeHeuristic (sqrtF : ℚ → ℚ) (paragraphs : List Str) (topic : Str) : List Metric :=
  (computeHeuristicMetrics sqrtF paragraphs topic).map
    (fun m => { snr := m.snr, complexity := m.complexity, topic := m.topic, role := [] })

/-- `getMetrics(paragraphs)` from `main.js`: mode dispatch with ordered
fallback.  The remote calls are modelled by their outcomes
(`httpOutcome`, `openAiOutcome`); in the source the second adapter is
only invoked when the first returned `null`, which coincides with this
model because adapter outcomes are independent of each other. -/
def getMetrics (backendMode httpEndpoint apiKey : String) (topic : Str)
    (httpOutcome : FetchOutcome) (openAiOutcome : Option (List Metric))
    (sqrtF : ℚ → ℚ) (paragraphs : List Str) : List Metric :=
  if backendMode = "heuristic" then computeHeuristic sqrtF paragraphs topic
  else if backendMode = "server" then
    match tryHttpEndpoint httpEndpoint httpOutcome paragraphs.length with
    | some metrics => metrics
    | none => computeHeuristic sqrtF paragraphs topic
  else if backendMode = "openai" then
    match tryOpenAi apiKey openAiOutcome with
    | some metrics => metrics
    | none => computeHeuristic sqrtF paragraphs topic
  else if backendMode = "auto" then
    match tryHttpEndpoint httpEndpoint httpOutcome paragraphs.length with
    | some serverMetrics => serverMetrics
    | none =>
      match tryOpenAi apiKey openAiOutcome with
      | some openaiMetrics => openaiMetrics
      | none => computeHeuristic sqrtF paragraphs topic
  else computeHeuristic sqrtF paragraphs topic

/-! ### Metrics cache, ranges and the analysis lifecycle -/

/-- `ranges` stored by `reanalyzeForced`. -/
structure Ranges where
  snrMin : ℚ
  snrMax : ℚ
  compMin : ℚ
  compMax : ℚ
deriving DecidableEq, Repr

/-- The ranges computation of `reanalyzeForced` (lines 952–959):
`Math.min(...)`/`Math.max(...)` over the `snr` and `complexity` columns,
with defaults `0`/`1` for an empty metrics array. -/
def computeRanges (metrics : List Metric) : Ranges :=
  let snrValues := metrics.map (fun m => m.snr)
  let compValues := metrics.map (fun m => m.complexity)
  { snrMin := match snrValues with | [] => 0 | x :: xs => xs.foldl min x
    snrMax := match snrValues with | [] => 1 | x :: xs => xs.foldl max x
    compMin := match compValues with | [] => 0 | x :: xs => xs.foldl min x
    compMax := match compValues with | [] => 1 | x :: xs => xs.foldl max x }

/-- The `metricsCache` record `{ file, metrics, paragraphs, ranges }`. -/
structure CacheEntry where
  file : String
  metrics : List Metric
  paragraphs : List Str
  ranges : Ranges
deriving DecidableEq, Repr

/-- The plugin state relevant to full analysis and cancellation.
Analysis contexts are identified by the order of their creation
(`nextId` is the id the next context will get); a context's mutable
`cancelled` flag is modelled by membership in `cancelledIds`. -/
structure PState where
  currentAnalysis : Option Nat
  cancelledIds : List Nat
  metricsCache : Option CacheEntry
  nextId : Nat
deriving DecidableEq, Repr

/-- The synchronous prefix of `reanalyzeForced` (up to the `await` of
`getMetrics`): cancel the current analysis context, drop the cache when
the active file changed, and install a fresh context.  Returns the new
state together with the fresh context's id.  (Cancelling the pending
debounce timer and the busy spinner have no effect on this state.) -/
def startAnalysis (file : String) (s : PState) : PState × Nat :=
  let cancelledIds :=
    match s.currentAnalysis with
    | some c => c :: s.cancelledIds
    | none => s.cancelledIds
  let metricsCache :=
    match s.metricsCache with
    | some entry => if entry.file ≠ file then none else some entry
    | none => none
  (⟨some s.nextId, cancelledIds, metricsCache, s.nextId + 1⟩, s.nextId)

/-- The continuation of `reanalyzeForced` after `getMetrics` resolves:
if the analysis context was flagged cancelled the result is discarded,
otherwise the cache is replaced wholesale with the new metrics and
freshly computed ranges. -/
def finishAnalysis (ctxId : Nat) (file : String) (metrics : List Metric)
    (paragraphs : List Str) (s : PState) : PState :=
  if ctxId ∈ s.cancelledIds then s
  else { s with metricsCache := some ⟨file, metrics, paragraphs, computeRanges metrics⟩ }

/-- The `normalize` closure of `computeDecorations`: raw clamping when
normalisation is disabled; `0.5` for a degenerate range (`range ≤ 1e-9`;
the `!isFinite(range)` disjunct cannot fire for rationals); otherwise
the clamped interpolation factor. -/
def normalize (normalizeRanges : Bool) (value lo hi : ℚ) : ℚ :=
  if !normalizeRanges then max 0 (min 1 value)
  else
    let range := hi - lo
    if range ≤ 1/1000000000 then 0.5
    else max 0 (min 1 ((value - lo) / range))

/-! ### Change tracking and partial recompute -/

/-- A character range `{ from, to }` in new-document coordinates. -/
structure ParaRange where
  rFrom : Nat
  rTo : Nat
deriving DecidableEq, Repr

/-- The dirtiness test of the editor `update` hook: a paragraph is
changed when its span intersects some changed range
(`r.from < para.to && r.to > para.from`). -/
def intersectsChanged (para : ParaRange) (changedRanges : List ParaRange) : Bool :=
  changedRanges.any (fun r => r.rFrom < para.rTo && r.rTo > para.rFrom)

/-- The metric synchronously recomputed by the `update` hook for a dirty
paragraph: cheap complexity only, `snr`/`topic` reset to `0` pending the
debounced re-scoring. -/
def freshComplexityMetric (sqrtF : ℚ → ℚ) (paraText : Str) : Metric :=
  let smogInfo := russianSmogIndex sqrtF paraText
  let lix := russianLixIndex paraText
  { snr := 0
    complexity := calculateComplexity lix smogInfo.value smogInfo.valid
    topic := 0
    role := [] }

/-- The `newMetrics` construction of the `update` hook, starting at
paragraph index `i`: a non-dirty paragraph whose index exists in the
previous cache carries the previous record over, every other paragraph
gets a fresh complexity-only record.  `paras` pairs each paragraph's
span with its text; `prev` is the previous cache's metrics when the
cache belongs to the current file (`null` otherwise). -/
def buildNewMetrics (sqrtF : ℚ → ℚ) (changedRanges : List ParaRange)
    (prev : Option (List Metric)) : Nat → List (ParaRange × Str) → List Metric
  | _, [] => []
  | i, p :: rest =>
    (if intersectsChanged p.1 changedRanges then freshComplexityMetric sqrtF p.2
     else
       match prev with
       | some pm =>
         match pm[i]? with
         | some m => m
         | none => freshComplexityMetric sqrtF p.2
       | none => freshComplexityMetric sqrtF p.2)
      :: buildNewMetrics sqrtF changedRanges prev (i + 1) rest

/-- The full `newMetrics` array of the `update` hook. -/
def updateNewMetrics (sqrtF : ℚ → ℚ) (changedRanges : List ParaRange)
    (prev : Option (List Metric)) (paras : List (ParaRange × Str)) : List Metric :=
  buildNewMetrics sqrtF changedRanges prev 0 paras

/-! ### The backend server's scorer (`server.js`) -/

/-- The body of the `for (const para of paragraphs)` loop of the
server's `computeMetrics`, for one paragraph: identical `snr` and
`topic` computations to the plugin's `heurOne`, but complexity is the
fraction of cleaned tokens longer than six characters. -/
def serverOne (topicLower : Str) (para : Str) : HeurMetric :=
  let words := wordsOf para
  let cleaned := words.map cleanToken
  let uniq := (cleaned.filter (fun w => w.length > 0)).dedup
  let snr : ℚ := if words.length > 0 then (uniq.length : ℚ) / (words.length : ℚ) else 0
  let longWords := cleaned.filter (fun w => w.length > 6)
  let complexity : ℚ :=
    if words.length > 0 then (longWords.length : ℚ) / (words.length : ℚ) else 0
  let topicScore : ℚ :=
    if topicLower.length > 0 then
      let occur := countOccurrences topicLower (para.map jsToLower)
      if occur > 0 then min 1 ((occur : ℚ) / 3) else 0
    else 0
  ⟨snr, complexity, topicScore⟩

/-- `computeMetrics(paragraphs, topic)` from `server.js`. -/
def computeMetrics (paragraphs : List Str) (topic : Str) : List HeurMetric :=
  paragraphs.map (serverOne (topic.map jsToLower))

/-! ### Spec-side formulations used for comparison -/

/-- The spec's SNR formula, transcribed from its words: "tokenize on
whitespace, strip non-letter/non-digit characters per token, lowercase,
ratio = (count of distinct non-empty tokens) / (count of all tokens);
0 if no tokens". -/
def snrSpec (para : Str) : ℚ :=
  let tokens := wordsOf para
  let cleanedTokens := (tokens.map cleanToken).filter (fun w => w.length > 0)
  if tokens.length = 0 then 0
  else (cleanedTokens.dedup.length : ℚ) / (tokens.length : ℚ)

/-- The spec's description of complexity when only the LIX sub-score can
contribute: the normalized LIX value if defined, `0` otherwise. -/
def lixOnlyComplexity (lix : Option ℚ) : ℚ :=
  match normalizeScore lix 0 80 with
  | none => 0
  | some v => v

lemma heurOne_snr_eq_snrSpec (sqrtF : ℚ → ℚ) (topicLower para : Str) :
    (heurOne sqrtF topicLower para).snr = snrSpec para := by
  have hdef : (heurOne sqrtF topicLower para).snr =
      (if (wordsOf para).length > 0 then
        (((((wordsOf para).map cleanToken).filter (fun w => w.length > 0)).dedup.length : ℚ)
          / ((wordsOf para).length : ℚ))
       else 0) := rfl
  rw [hdef]
  unfold snrSpec
  by_cases h : (wordsOf para).length = 0
  · simp [h]
  · simp only [h, if_false]
    rw [if_pos (Nat.pos_of_ne_zero h)]

/-! ### Claim theorems -/

/-- **C1.** For every list of paragraph strings, resolving metrics in
`heuristic` mode (`getMetrics` with `backendMode = 'heuristic'`) never
throws (the model is a total function) and returns an array whose length
equals the input length and in which every numeric field (`snr`,
`complexity`, `topic`) lies within `[0, 1]`. -/
theorem heuristic_mode_length_and_bounds (httpEndpoint apiKey : String) (topic : Str)
    (httpOutcome : FetchOutcome) (openAiOutcome : Option (List Metric))
    (sqrtF : ℚ → ℚ) (paragraphs : List Str) :
    (getMetrics "heuristic" httpEndpoint apiKey topic httpOutcome openAiOutcome sqrtF
        paragraphs).length = paragraphs.length ∧
    ∀ m ∈ getMetrics "heuristic" httpEndpoint apiKey topic httpOutcome openAiOutcome sqrtF
        paragraphs,
      (0 ≤ m.snr ∧ m.snr ≤ 1) ∧ (0 ≤ m.complexity ∧ m.complexity ≤ 1) ∧
        (0 ≤ m.topic ∧ m.topic ≤ 1) := by
  have hmode : getMetrics "heuristic" httpEndpoint apiKey topic httpOutcome openAiOutcome
      sqrtF paragraphs = computeHeuristic sqrtF paragraphs topic := rfl
  rw [hmode]
  constructor
  · simp [computeHeuristic, computeHeuristicMetrics]
  · intro m hm
    simp only [computeHeuristic, computeHeuristicMetrics, List.map_map, List.mem_map] at hm
    obtain ⟨para, hpara, rfl⟩ := hm
    exact ⟨heurOne_snr_bounds sqrtF (topic.map jsToLower) para,
      heurOne_complexity_bounds sqrtF (topic.map jsToLower) para,
      heurOne_topic_bounds sqrtF (topic.map jsToLower) para⟩

/-- Witness for C1 at the concrete input `["a a b"]`. -/
theorem heuristic_mode_length_and_bounds_witness :
    (getMetrics "heuristic" "http://localhost:5000/analyze" "" [] FetchOutcome.thrown none
        (fun q => q) ["a a b".toList]).length = 1 ∧
    ((0 ≤ (Metric.mk (2/3) 0 0 []).snr ∧ (Metric.mk (2/3) 0 0 []).snr ≤ 1) ∧
      (0 ≤ (Metric.mk (2/3) 0 0 []).complexity ∧ (Metric.mk (2/3) 0 0 []).complexity ≤ 1) ∧
      (0 ≤ (Metric.mk (2/3) 0 0 []).topic ∧ (Metric.mk (2/3) 0 0 []).topic ≤ 1)) := by
  have h := heuristic_mode_length_and_bounds "http://localhost:5000/analyze" "" []
    FetchOutcome.thrown none (fun q => q) ["a a b".toList]
  refine ⟨h.1, h.2 (Metric.mk (2/3) 0 0 []) ?_⟩
  have hl : getMetrics "heuristic" "http://localhost:5000/analyze" "" [] FetchOutcome.thrown
      none (fun q => q) ["a a b".toList] = [Metric.mk (2/3) 0 0 []] := rfl
  rw [hl]
  exact List.mem_singleton.mpr rfl

/-- **C2.** In `auto` mode the resolver tries the HTTP adapter first,
then the LLM/OpenAI adapter, then the heuristic, in that fixed order,
and the first non-`null` result is returned unchanged: in particular, if
the HTTP adapter returns `null` and the OpenAI adapter succeeds, the
resolver's output equals the OpenAI adapter's raw output, not the
heuristic result. -/
theorem auto_mode_fallback_order (httpEndpoint apiKey : String) (topic : Str)
    (httpOutcome : FetchOutcome) (openAiOutcome : Option (List Metric))
    (sqrtF : ℚ → ℚ) (paragraphs : List Str) (r : List Metric) :
    (tryHttpEndpoint httpEndpoint httpOutcome paragraphs.length = some r →
      getMetrics "auto" httpEndpoint apiKey topic httpOutcome openAiOutcome sqrtF
        paragraphs = r) ∧
    (tryHttpEndpoint httpEndpoint httpOutcome paragraphs.length = none →
      tryOpenAi apiKey openAiOutcome = some r →
      getMetrics "auto" httpEndpoint apiKey topic httpOutcome openAiOutcome sqrtF
        paragraphs = r) ∧
    (tryHttpEndpoint httpEndpoint httpOutcome paragraphs.length = none →
      tryOpenAi apiKey openAiOutcome = none →
      getMetrics "auto" httpEndpoint apiKey topic httpOutcome openAiOutcome sqrtF
        paragraphs = computeHeuristic sqrtF paragraphs topic) := by
  have hdef : getMetrics "auto" httpEndpoint apiKey topic httpOutcome openAiOutcome sqrtF
      paragraphs =
      (match tryHttpEndpoint httpEndpoint httpOutcome paragraphs.length with
       | some serverMetrics => serverMetrics
       | none =>
         match tryOpenAi apiKey openAiOutcome with
         | some openaiMetrics => openaiMetrics
         | none => computeHeuristic sqrtF paragraphs topic) := rfl
  refine ⟨fun h1 => ?_, fun h1 h2 => ?_, fun h1 h2 => ?_⟩
  · rw [hdef, h1]
  · rw [hdef, h1, h2]
  · rw [hdef, h1, h2]

/-- Witness for C2: an HTTP adapter outcome that yields `null` (a thrown
fetch) and an OpenAI adapter that succeeds; the resolver returns the
OpenAI result unchanged. -/
theorem auto_mode_fallback_order_witness :
    getMetrics "auto" "http://localhost:5000/analyze" "sk-key" [] FetchOutcome.thrown
      (some [Metric.mk (1/2) (1/4) (1/2) []]) (fun q => q) ["hello".toList] =
      [Metric.mk (1/2) (1/4) (1/2) []] :=
  (auto_mode_fallback_order "http://localhost:5000/analyze" "sk-key" [] FetchOutcome.thrown
    (some [Metric.mk (1/2) (1/4) (1/2) []]) (fun q => q) ["hello".toList]
    [Metric.mk (1/2) (1/4) (1/2) []]).2.1 rfl rfl

/-- **C6.** For every paragraph, the heuristic SNR equals (number of
distinct tokens that are non-empty after stripping non-letter/non-digit
characters and lowercasing) divided by (total number of
whitespace-separated tokens), and is `0` when there are no tokens; in
particular `snr("a a b") = 2/3` and `snr("Baz baz baz.") = 1/3`. -/
theorem heuristic_snr_formula (sqrtF : ℚ → ℚ) (topic : Str) (paragraphs : List Str) :
    (computeHeuristicMetrics sqrtF paragraphs topic).map (fun m => m.snr) =
      paragraphs.map snrSpec ∧
    (computeHeuristicMetrics sqrtF ["a a b".toList] topic).map (fun m => m.snr) = [2/3] ∧
    (computeHeuristicMetrics sqrtF ["Baz baz baz.".toList] topic).map (fun m => m.snr) =
      [1/3] := by
  have hmap : ∀ (ps : List Str),
      (computeHeuristicMetrics sqrtF ps topic).map (fun m => m.snr) = ps.map snrSpec := by
    intro ps
    unfold computeHeuristicMetrics
    rw [List.map_map]
    apply List.map_congr_left
    intro para _
    exact heurOne_snr_eq_snrSpec sqrtF _ para
  refine ⟨hmap paragraphs, ?_, ?_⟩
  · rw [hmap]
    show [snrSpec ("a a b".toList)] = [2/3]
    rw [show snrSpec ("a a b".toList) = 2/3 from rfl]
  · rw [hmap]
    show [snrSpec ("Baz baz baz.".toList)] = [1/3]
    rw [show snrSpec ("Baz baz baz.".toList) = 1/3 from rfl]

/-- **C9.** Each remote backend adapter signals failure by evaluating to
`null` and never lets a thrown error escape (the thrown outcome maps to
`none`); missing configuration — empty endpoint URL for the HTTP
adapter, empty API key for the OpenAI adapter — short-circuits the
adapter to `null` regardless of (i.e. without attempting) the remote
call. -/
theorem adapters_null_on_failure :
    (∀ (outcome : FetchOutcome) (n : Nat), tryHttpEndpoint "" outcome n = none) ∧
    (∀ (callOutcome : Option (List Metric)), tryOpenAi "" callOutcome = none) ∧
    (∀ (ep : String) (n : Nat), tryHttpEndpoint ep FetchOutcome.thrown n = none) ∧
    (∀ (ep : String) (n : Nat) (d : Option (List HttpItem)),
      tryHttpEndpoint ep (FetchOutcome.resp false d) n = none) ∧
    (∀ (ep : String) (n : Nat) (items : List HttpItem), items.length ≠ n →
      tryHttpEndpoint ep (FetchOutcome.resp true (some items)) n = none) := by
  refine ⟨fun outcome n => rfl, fun callOutcome => rfl, fun ep n => ?_, fun ep n d => ?_,
    fun ep n items h => ?_⟩
  · unfold tryHttpEndpoint
    split <;> rfl
  · unfold tryHttpEndpoint
    split
    · rfl
    · simp
  · unfold tryHttpEndpoint
    split
    · rfl
    · simp [h]

/-- Witness for C9 at concrete adapter inputs. -/
theorem adapters_null_on_failure_witness :
    tryHttpEndpoint "" (FetchOutcome.resp true (some [])) 0 = none ∧
    tryOpenAi "" (some []) = none ∧
    tryHttpEndpoint "http://e" FetchOutcome.thrown 2 = none ∧
    tryHttpEndpoint "http://e" (FetchOutcome.resp false none) 2 = none ∧
    tryHttpEndpoint "http://e" (FetchOutcome.resp true (some [])) 2 = none :=
  ⟨adapters_null_on_failure.1 (FetchOutcome.resp true (some [])) 0,
    adapters_null_on_failure.2.1 (some []),
    adapters_null_on_failure.2.2.1 "http://e" 2,
    adapters_null_on_failure.2.2.2.1 "http://e" 2 none,
    adapters_null_on_failure.2.2.2.2 "http://e" 2 [] (by decide)⟩

/-- **C10.** For every paragraph list and every topic string, the
plugin's heuristic scorer (`computeHeuristicMetrics` in `main.js`) and
the backend server's scorer (`computeMetrics` in `server.js`) return
element-wise identical `snr` and `topic` values. -/
theorem plugin_server_snr_topic_agree (sqrtF : ℚ → ℚ) (paragraphs : List Str) (topic : Str) :
    (computeHeuristicMetrics sqrtF paragraphs topic).map (fun m => m.snr) =
      (computeMetrics paragraphs topic).map (fun m => m.snr) ∧
    (computeHeuristicMetrics sqrtF paragraphs topic).map (fun m => m.topic) =
      (computeMetrics paragraphs topic).map (fun m => m.topic) := by
  unfold computeHeuristicMetrics computeMetrics
  constructor
  · rw [List.map_map, List.map_map]
    apply List.map_congr_left
    intro para _
    rfl
  · rw [List.map_map, List.map_map]
    apply List.map_congr_left
    intro para _
    rfl

/-! ### C7: SMOG needs at least three sentences -/

lemma jsRound_intCast (k : ℤ) : jsRound (k : ℚ) = k := by
  unfold jsRound
  rw [add_comm, Int.floor_add_int]
  norm_num

lemma round3_round3 (q : ℚ) : round3 (round3 q) = round3 q := by
  unfold round3
  rw [div_mul_cancel₀ _ (by norm_num : (1000 : ℚ) ≠ 0), jsRound_intCast]

lemma round3_zero : round3 0 = 0 := by
  unfold round3 jsRound
  norm_num

lemma normalizeScore_fixed {v lo hi r : ℚ}
    (h : normalizeScore (some v) lo hi = some r) : round3 r = r := by
  have h' : (if hi = lo then some (0 : ℚ)
      else some (round3 ((min (max v lo) hi - lo) / (hi - lo)))) = some r := h
  by_cases heq : hi = lo
  · rw [if_pos heq] at h'
    cases h'
    exact round3_zero
  · rw [if_neg heq] at h'
    cases h'
    exact round3_round3 _

lemma calculateComplexity_smog_invalid (lix smog : Option ℚ) :
    calculateComplexity lix smog false = lixOnlyComplexity lix := by
  have hdef : calculateComplexity lix smog false =
      (if ((normalizeScore lix 0 80).toList ++ (none : Option ℚ).toList).isEmpty then (0 : ℚ)
       else round3 (((normalizeScore lix 0 80).toList ++ (none : Option ℚ).toList).sum /
          ((((normalizeScore lix 0 80).toList ++ (none : Option ℚ).toList)).length : ℚ))) := rfl
  rw [hdef]
  unfold lixOnlyComplexity
  cases lix with
  | none =>
    simp [normalizeScore]
  | some x =>
    cases hns : normalizeScore (some x) 0 80 with
    | none =>
      have h' : (if (80 : ℚ) = 0 then some (0 : ℚ)
          else some (round3 ((min (max x 0) 80 - 0) / (80 - 0)))) = none := hns
      rw [if_neg (by norm_num)] at h'
      cases h'
    | some v =>
      simp only [Option.toList_some, Option.toList_none, List.append_nil, List.isEmpty_cons,
        if_false, List.sum_cons, List.sum_nil, List.length_cons, List.length_nil]
      rw [show ((v + 0) / ((0 + 1 : ℕ) : ℚ)) = v by norm_num]
      exact normalizeScore_fixed hns

lemma smog_invalid_of_lt_three (sqrtF : ℚ → ℚ) (text : Str)
    (h : (splitSentencesRussian text).length < 3) :
    (russianSmogIndex sqrtF text).valid = false := by
  simp only [russianSmogIndex]
  split
  · rfl
  · split
    · rfl
    · split
      · show decide ((splitSentencesRussian text).length ≥ 3) = false
        simp only [decide_eq_false_iff_not]
        omega
      · show decide ((splitSentencesRussian text).length ≥ 3) = false
        simp only [decide_eq_false_iff_not]
        omega

/-- **C7.** The heuristic complexity of a paragraph with fewer than 3
sentences never incorporates the SMOG sub-score — only the normalized
LIX value, if defined, contributes — and when neither the LIX nor the
SMOG sub-score is defined, `calculateComplexity` returns exactly `0`. -/
theorem complexity_smog_needs_three_sentences (sqrtF : ℚ → ℚ) (topicLower para : Str)
    (h : (splitSentencesRussian para).length < 3) (b : Bool) :
    (heurOne sqrtF topicLower para).complexity = lixOnlyComplexity (russianLixIndex para) ∧
    calculateComplexity none none b = 0 := by
  constructor
  · have hdef : (heurOne sqrtF topicLower para).complexity =
        calculateComplexity (russianLixIndex para) (russianSmogIndex sqrtF para).value
          (russianSmogIndex sqrtF para).valid := rfl
    rw [hdef, smog_invalid_of_lt_three sqrtF para h]
    exact calculateComplexity_smog_invalid _ _
  · cases b <;> rfl

/-- Witness for C7 at the concrete one-sentence paragraph `"Foo bar."`. -/
theorem complexity_smog_needs_three_sentences_witness :
    (heurOne (fun q => q) [] ("Foo bar.".toList)).complexity =
      lixOnlyComplexity (russianLixIndex ("Foo bar.".toList)) ∧
    calculateComplexity none none true = 0 :=
  complexity_smog_needs_three_sentences (fun q => q) [] ("Foo bar.".toList)
    (by decide) true

/-! ### C3: numeric fields of stored metrics are not always clamped -/

/-- **C3 counterexample.** The claim "every Metric record that is stored
into the MetricsCache … has finite numeric fields clamped to `[0, 1]`,
regardless of which backend produced it — including metrics returned by
the HTTP adapter" is false: in `server` mode an HTTP response item with
`snr = 2` is mapped through unclamped by `tryHttpEndpoint` and written
verbatim into the cache by the `reanalyzeForced` continuation, so the
stored record has `snr = 2 > 1`. -/
theorem http_metric_unclamped_counterexample :
    (finishAnalysis 0 "note.md"
        (getMetrics "server" "http://e" "" []
          (FetchOutcome.resp true (some [⟨some 2, none, none, none⟩])) none
          (fun q => q) [['x']])
        [['x']] ⟨none, [], none, 0⟩).metricsCache =
      some ⟨"note.md", [⟨2, 0, 0, []⟩], [['x']], ⟨2, 2, 0, 0⟩⟩ ∧
    ¬ ((2 : ℚ) ≤ 1) :=
  ⟨rfl, by norm_num⟩

/-- **C3 amended.** Metrics produced by the heuristic scorer are within
`[0, 1]` (see C1), but a Metric record accepted from the HTTP adapter is
stored with its numeric field values passed through unclamped — only
non-numeric fields are defaulted to `0` — so out-of-range server values
reach the cache and rendering as-is. -/
theorem http_adapter_passthrough (ep : String) (hep : ep.isEmpty = false)
    (items : List HttpItem) (n : Nat) (hlen : items.length = n) (item : HttpItem) (q : ℚ)
    (hq : item.snr = some q) :
    tryHttpEndpoint ep (FetchOutcome.resp true (some items)) n =
      some (items.map httpItemToMetric) ∧
    (httpItemToMetric item).snr = q := by
  constructor
  · unfold tryHttpEndpoint
    rw [hep]
    simp only [Bool.false_eq_true, if_false, if_true, hlen, if_pos rfl]
  · unfold httpItemToMetric
    rw [hq]
    rfl

/-- Witness for the amended C3 at a concrete out-of-range response. -/
theorem http_adapter_passthrough_witness :
    tryHttpEndpoint "http://e" (FetchOutcome.resp true (some [⟨some 2, none, none, none⟩])) 1 =
      some [⟨2, 0, 0, []⟩] ∧
    (httpItemToMetric ⟨some 2, none, none, none⟩).snr = 2 := by
  have h := http_adapter_passthrough "http://e" rfl [⟨some 2, none, none, none⟩] 1 rfl
    ⟨some 2, none, none, none⟩ 2 rfl
  exact ⟨h.1, h.2⟩

/-! ### C4: partial recompute leaves non-dirty paragraphs untouched -/

lemma buildNewMetrics_getElem_clean (sqrtF : ℚ → ℚ) (changedRanges : List ParaRange)
    (pm : List Metric) :
    ∀ (paras : List (ParaRange × Str)) (j i : Nat) (hi : i < paras.length),
      intersectsChanged (paras.get ⟨i, hi⟩).1 changedRanges = false →
      j + i < pm.length →
      (buildNewMetrics sqrtF changedRanges (some pm) j paras)[i]? = pm[j + i]? := by
  intro paras
  induction paras with
  | nil =>
    intro j i hi
    simp at hi
  | cons p rest ih =>
    intro j i hi hclean hlt
    cases i with
    | zero =>
      have hj : j < pm.length := by omega
      have hm : pm[j]? = some pm[j] := List.getElem?_eq_getElem hj
      simp only [List.get] at hclean
      simp only [buildNewMetrics, hclean, Bool.false_eq_true, if_false, hm,
        List.getElem?_cons_zero, Nat.add_zero]
    | succ i' =>
      simp only [buildNewMetrics, List.getElem?_cons_succ]
      have hi' : i' < rest.length := by simp at hi; omega
      have hclean' : intersectsChanged (rest.get ⟨i', hi'⟩).1 changedRanges = false := by
        simpa using hclean
      have := ih (j + 1) i' hi' hclean' (by omega)
      rw [this]
      congr 1
      omega

/-- **C4.** During partial recompute after a document mutation that
leaves the paragraph count at `N` and changes the text of exactly one
paragraph (index `j`; every other index does not intersect the changed
ranges), the Metric records of the other `N − 1` non-dirty paragraphs
are carried over into the new cache unchanged by index.  (Value equality
is the shallow counterpart of "object-identical": the source stores the
very same `prev.metrics[i]` reference.) -/
theorem partial_recompute_frame (sqrtF : ℚ → ℚ) (changedRanges : List ParaRange)
    (pm : List Metric) (paras : List (ParaRange × Str)) (j : Nat)
    (hlen : paras.length = pm.length)
    (hdirty : ∀ i (hi : i < paras.length), i ≠ j →
      intersectsChanged (paras.get ⟨i, hi⟩).1 changedRanges = false) :
    ∀ i (hi : i < paras.length), i ≠ j →
      (updateNewMetrics sqrtF changedRanges (some pm) paras)[i]? = pm[i]? := by
  intro i hi hneq
  have h := buildNewMetrics_getElem_clean sqrtF changedRanges pm paras 0 i hi
    (hdirty i hi hneq) (by omega)
  simpa [updateNewMetrics] using h

/-- Witness for C4: two paragraphs, only index 0 dirty; the record at
index 1 is carried over unchanged. -/
theorem partial_recompute_frame_witness :
    (updateNewMetrics (fun q => q) [⟨0, 2⟩]
        (some [⟨1/2, 0, 0, []⟩, ⟨1/3, 1/4, 0, []⟩])
        [(⟨0, 5⟩, "aaa".toList), (⟨6, 10⟩, "bbb".toList)])[1]? =
      [(⟨1/2, 0, 0, []⟩ : Metric), ⟨1/3, 1/4, 0, []⟩][1]? :=
  partial_recompute_frame (fun q => q) [⟨0, 2⟩]
    [⟨1/2, 0, 0, []⟩, ⟨1/3, 1/4, 0, []⟩]
    [(⟨0, 5⟩, "aaa".toList), (⟨6, 10⟩, "bbb".toList)] 0
    (by decide)
    (by decide)
    1 (by decide) (by decide)

/-! ### C5: a superseded analysis never writes the cache -/

lemma finishAnalysis_cancelled {ctxId : Nat} {s : PState} (h : ctxId ∈ s.cancelledIds)
    (file : String) (metrics : List Metric) (paragraphs : List Str) :
    finishAnalysis ctxId file metrics paragraphs s = s := by
  unfold finishAnalysis
  rw [if_pos h]

lemma finishAnalysis_active {ctxId : Nat} {s : PState} (h : ctxId ∉ s.cancelledIds)
    (file : String) (metrics : List Metric) (paragraphs : List Str) :
    finishAnalysis ctxId file metrics paragraphs s =
      { s with metricsCache := some ⟨file, metrics, paragraphs, computeRanges metrics⟩ } := by
  unfold finishAnalysis
  rw [if_neg h]

/-- **C5.** A full analysis whose context has been flagged cancelled
(because a newer analysis was started) never writes its result into the
MetricsCache.  From any well-formed plugin state (all recorded context
ids are older than `nextId`), starting analysis A for document `fA` and
then analysis B for document `fB` supersedes A; whichever order the two
results then arrive in, the cache ends up holding B's entry and A's
late-arriving result never overwrites it. -/
theorem cancelled_analysis_never_writes (s : PState)
    (hCancelled : ∀ i ∈ s.cancelledIds, i < s.nextId)
    (hCurrent : ∀ c, s.currentAnalysis = some c → c < s.nextId)
    (fA fB : String) (mA mB : List Metric) (pA pB : List Str) :
    ((finishAnalysis (startAnalysis fA s).2 fA mA pA
        (finishAnalysis (startAnalysis fB (startAnalysis fA s).1).2 fB mB pB
          (startAnalysis fB (startAnalysis fA s).1).1)).metricsCache =
      some ⟨fB, mB, pB, computeRanges mB⟩) ∧
    ((finishAnalysis (startAnalysis fB (startAnalysis fA s).1).2 fB mB pB
        (finishAnalysis (startAnalysis fA s).2 fA mA pA
          (startAnalysis fB (startAnalysis fA s).1).1)).metricsCache =
      some ⟨fB, mB, pB, computeRanges mB⟩) := by
  have hs1c : (startAnalysis fA s).1.cancelledIds =
      (match s.currentAnalysis with
       | some c => c :: s.cancelledIds
       | none => s.cancelledIds) := rfl
  have hs1lt : ∀ i ∈ (startAnalysis fA s).1.cancelledIds, i < s.nextId := by
    intro i hi
    rw [hs1c] at hi
    cases hcur : s.currentAnalysis with
    | none =>
      rw [hcur] at hi
      exact hCancelled i hi
    | some c =>
      rw [hcur] at hi
      rcases List.mem_cons.mp hi with h | h
      · subst h
        exact hCurrent i hcur
      · exact hCancelled i h
  have hs2c : (startAnalysis fB (startAnalysis fA s).1).1.cancelledIds =
      s.nextId :: (startAnalysis fA s).1.cancelledIds := rfl
  have ha : (startAnalysis fA s).2 ∈
      (startAnalysis fB (startAnalysis fA s).1).1.cancelledIds := by
    rw [hs2c]
    show s.nextId ∈ s.nextId :: (startAnalysis fA s).1.cancelledIds
    exact List.mem_cons_self _ _
  have hb : (startAnalysis fB (startAnalysis fA s).1).2 ∉
      (startAnalysis fB (startAnalysis fA s).1).1.cancelledIds := by
    rw [hs2c]
    show s.nextId + 1 ∉ s.nextId :: (startAnalysis fA s).1.cancelledIds
    intro hmem
    rcases List.mem_cons.mp hmem with h | h
    · omega
    · exact absurd (hs1lt _ h) (by omega)
  constructor
  · rw [finishAnalysis_active hb fB mB pB]
    have ha' : (startAnalysis fA s).2 ∈
        ({ (startAnalysis fB (startAnalysis fA s).1).1 with
            metricsCache := some ⟨fB, mB, pB, computeRanges mB⟩ } : PState).cancelledIds := ha
    rw [finishAnalysis_cancelled ha' fA mA pA]
  · rw [finishAnalysis_cancelled ha fA mA pA, finishAnalysis_active hb fB mB pB]

/-- Witness for C5 from the initial plugin state. -/
theorem cancelled_analysis_never_writes_witness :
    ((finishAnalysis (startAnalysis "A.md" ⟨none, [], none, 0⟩).2 "A.md"
        [⟨1, 1, 1, []⟩] ["a".toList]
        (finishAnalysis
          (startAnalysis "B.md" (startAnalysis "A.md" ⟨none, [], none, 0⟩).1).2 "B.md"
          [⟨0, 0, 0, []⟩] ["b".toList]
          (startAnalysis "B.md" (startAnalysis "A.md" ⟨none, [], none, 0⟩).1).1)).metricsCache =
      some ⟨"B.md", [⟨0, 0, 0, []⟩], ["b".toList], computeRanges [⟨0, 0, 0, []⟩]⟩) ∧
    ((finishAnalysis
        (startAnalysis "B.md" (startAnalysis "A.md" ⟨none, [], none, 0⟩).1).2 "B.md"
        [⟨0, 0, 0, []⟩] ["b".toList]
        (finishAnalysis (startAnalysis "A.md" ⟨none, [], none, 0⟩).2 "A.md"
          [⟨1, 1, 1, []⟩] ["a".toList]
          (startAnalysis "B.md" (startAnalysis "A.md" ⟨none, [], none, 0⟩).1).1)).metricsCache =
      some ⟨"B.md", [⟨0, 0, 0, []⟩], ["b".toList], computeRanges [⟨0, 0, 0, []⟩]⟩) :=
  cancelled_analysis_never_writes ⟨none, [], none, 0⟩
    (by intro i hi; simp at hi)
    (by intro c hc; simp at hc)
    "A.md" "B.md" [⟨1, 1, 1, []⟩] [⟨0, 0, 0, []⟩] ["a".toList] ["b".toList]

/-! ### C8: ranges are the literal min/max; normalization endpoints -/

lemma foldl_min_le (xs : List ℚ) (a : ℚ) :
    xs.foldl min a ≤ a ∧ ∀ x ∈ xs, xs.foldl min a ≤ x := by
  induction xs generalizing a with
  | nil => simp
  | cons y ys ih =>
    have h := ih (min a y)
    simp only [List.foldl_cons]
    refine ⟨le_trans h.1 (min_le_left a y), ?_⟩
    intro x hx
    rcases List.mem_cons.mp hx with h' | h'
    · subst h'
      exact le_trans h.1 (min_le_right a x)
    · exact h.2 x h'

lemma foldl_min_mem (xs : List ℚ) (a : ℚ) :
    xs.foldl min a = a ∨ xs.foldl min a ∈ xs := by
  induction xs generalizing a with
  | nil => left; rfl
  | cons y ys ih =>
    simp only [List.foldl_cons]
    rcases ih (min a y) with h | h
    · rcases le_total a y with hay | hya
      · left
        rw [h, min_eq_left hay]
      · right
        rw [h, min_eq_right hya]
        exact List.mem_cons_self _ _
    · right
      exact List.mem_cons_of_mem _ h

lemma foldl_max_le (xs : List ℚ) (a : ℚ) :
    a ≤ xs.foldl max a ∧ ∀ x ∈ xs, x ≤ xs.foldl max a := by
  induction xs generalizing a with
  | nil => simp
  | cons y ys ih =>
    have h := ih (max a y)
    simp only [List.foldl_cons]
    refine ⟨le_trans (le_max_left a y) h.1, ?_⟩
    intro x hx
    rcases List.mem_cons.mp hx with h' | h'
    · subst h'
      exact le_trans (le_max_right a x) h.1
    · exact h.2 x h'

lemma foldl_max_mem (xs : List ℚ) (a : ℚ) :
    xs.foldl max a = a ∨ xs.foldl max a ∈ xs := by
  induction xs generalizing a with
  | nil => left; rfl
  | cons y ys ih =>
    simp only [List.foldl_cons]
    rcases ih (max a y) with h | h
    · rcases le_total a y with hay | hya
      · right
        rw [h, max_eq_right hay]
        exact List.mem_cons_self _ _
      · left
        rw [h, max_eq_left hya]
    · right
      exact List.mem_cons_of_mem _ h

/-- **C8.** A full reanalysis stores the cache's color-normalization
ranges as the literal minimum and maximum of the `snr` and `complexity`
values across all current metrics; normalization for coloring maps a
document with SNR values `[0.2, 0.8]` to exactly `0.0` and `1.0`, and a
single-paragraph document (degenerate `min == max` range) normalizes
both SNR and complexity to `0.5`. -/
theorem ranges_literal_minmax_and_normalization (metrics : List Metric)
    (hne : metrics ≠ []) (m : Metric) :
    ((computeRanges metrics).snrMin ∈ metrics.map (fun x => x.snr) ∧
      ∀ v ∈ metrics.map (fun x => x.snr), (computeRanges metrics).snrMin ≤ v) ∧
    ((computeRanges metrics).snrMax ∈ metrics.map (fun x => x.snr) ∧
      ∀ v ∈ metrics.map (fun x => x.snr), v ≤ (computeRanges metrics).snrMax) ∧
    ((computeRanges metrics).compMin ∈ metrics.map (fun x => x.complexity) ∧
      ∀ v ∈ metrics.map (fun x => x.complexity), (computeRanges metrics).compMin ≤ v) ∧
    ((computeRanges metrics).compMax ∈ metrics.map (fun x => x.complexity) ∧
      ∀ v ∈ metrics.map (fun x => x.complexity), v ≤ (computeRanges metrics).compMax) ∧
    (normalize true (1/5)
        (computeRanges [⟨1/5, 0, 0, []⟩, ⟨4/5, 0, 0, []⟩]).snrMin
        (computeRanges [⟨1/5, 0, 0, []⟩, ⟨4/5, 0, 0, []⟩]).snrMax = 0 ∧
      normalize true (4/5)
        (computeRanges [⟨1/5, 0, 0, []⟩, ⟨4/5, 0, 0, []⟩]).snrMin
        (computeRanges [⟨1/5, 0, 0, []⟩, ⟨4/5, 0, 0, []⟩]).snrMax = 1) ∧
    (normalize true m.snr (computeRanges [m]).snrMin (computeRanges [m]).snrMax = 1/2 ∧
      normalize true m.complexity
        (computeRanges [m]).compMin (computeRanges [m]).compMax = 1/2) := by
  obtain ⟨m0, ms, rfl⟩ : ∃ m0 ms, metrics = m0 :: ms := by
    cases metrics with
    | nil => exact absurd rfl hne
    | cons m0 ms => exact ⟨m0, ms, rfl⟩
  have hsnrMin : (computeRanges (m0 :: ms)).snrMin =
      (ms.map (fun x => x.snr)).foldl min m0.snr := rfl
  have hsnrMax : (computeRanges (m0 :: ms)).snrMax =
      (ms.map (fun x => x.snr)).foldl max m0.snr := rfl
  have hcompMin : (computeRanges (m0 :: ms)).compMin =
      (ms.map (fun x => x.complexity)).foldl min m0.complexity := rfl
  have hcompMax : (computeRanges (m0 :: ms)).compMax =
      (ms.map (fun x => x.complexity)).foldl max m0.complexity := rfl
  refine ⟨⟨?_, ?_⟩, ⟨?_, ?_⟩, ⟨?_, ?_⟩, ⟨?_, ?_⟩, ⟨?_, ?_⟩, ⟨?_, ?_⟩⟩
  · rw [hsnrMin, List.map_cons]
    rcases foldl_min_mem (ms.map (fun x => x.snr)) m0.snr with h | h
    · rw [h]; exact List.mem_cons_self _ _
    · exact List.mem_cons_of_mem _ h
  · intro v hv
    rw [hsnrMin]
    rw [List.map_cons] at hv
    rcases List.mem_cons.mp hv with h | h
    · subst h; exact (foldl_min_le _ _).1
    · exact (foldl_min_le _ _).2 v h
  · rw [hsnrMax, List.map_cons]
    rcases foldl_max_mem (ms.map (fun x => x.snr)) m0.snr with h | h
    · rw [h]; exact List.mem_cons_self _ _
    · exact List.mem_cons_of_mem _ h
  · intro v hv
    rw [hsnrMax]
    rw [List.map_cons] at hv
    rcases List.mem_cons.mp hv with h | h
    · subst h; exact (foldl_max_le _ _).1
    · exact (foldl_max_le _ _).2 v h
  · rw [hcompMin, List.map_cons]
    rcases foldl_min_mem (ms.map (fun x => x.complexity)) m0.complexity with h | h
    · rw [h]; exact List.mem_cons_self _ _
    · exact List.mem_cons_of_mem _ h
  · intro v hv
    rw [hcompMin]
    rw [List.map_cons] at hv
    rcases List.mem_cons.mp hv with h | h
    · subst h; exact (foldl_min_le _ _).1
    · exact (foldl_min_le _ _).2 v h
  · rw [hcompMax, List.map_cons]
    rcases foldl_max_mem (ms.map (fun x => x.complexity)) m0.complexity with h | h
    · rw [h]; exact List.mem_cons_self _ _
    · exact List.mem_cons_of_mem _ h
  · intro v hv
    rw [hcompMax]
    rw [List.map_cons] at hv
    rcases List.mem_cons.mp hv with h | h
    · subst h; exact (foldl_max_le _ _).1
    · exact (foldl_max_le _ _).2 v h
  · have hr : (computeRanges [⟨1/5, 0, 0, []⟩, ⟨4/5, 0, 0, []⟩]).snrMin = 1/5 ∧
        (computeRanges [⟨1/5, 0, 0, []⟩, ⟨4/5, 0, 0, []⟩]).snrMax = 4/5 := by
      constructor
      · show (min (1/5 : ℚ) (4/5)) = 1/5
        norm_num
      · show (max (1/5 : ℚ) (4/5)) = 4/5
        norm_num
    rw [hr.1, hr.2]
    unfold normalize
    norm_num
  · have hr : (computeRanges [⟨1/5, 0, 0, []⟩, ⟨4/5, 0, 0, []⟩]).snrMin = 1/5 ∧
        (computeRanges [⟨1/5, 0, 0, []⟩, ⟨4/5, 0, 0, []⟩]).snrMax = 4/5 := by
      constructor
      · show (min (1/5 : ℚ) (4/5)) = 1/5
        norm_num
      · show (max (1/5 : ℚ) (4/5)) = 4/5
        norm_num
    rw [hr.1, hr.2]
    unfold normalize
    norm_num
  · have h1 : (computeRanges [m]).snrMin = m.snr := rfl
    have h2 : (computeRanges [m]).snrMax = m.snr := rfl
    rw [h1, h2]
    unfold normalize
    norm_num
  · have h1 : (computeRanges [m]).compMin = m.complexity := rfl
    have h2 : (computeRanges [m]).compMax = m.complexity := rfl
    rw [h1, h2]
    unfold normalize
    norm_num

/-- Witness for C8: the closed normalization parts at a concrete
metrics list and a concrete single metric. -/
theorem ranges_literal_minmax_and_normalization_witness :
    (normalize true (1/5)
        (computeRanges [⟨1/5, 0, 0, []⟩, ⟨4/5, 0, 0, []⟩]).snrMin
        (computeRanges [⟨1/5, 0, 0, []⟩, ⟨4/5, 0, 0, []⟩]).snrMax = 0 ∧
      normalize true (4/5)
        (computeRanges [⟨1/5, 0, 0, []⟩, ⟨4/5, 0, 0, []⟩]).snrMin
        (computeRanges [⟨1/5, 0, 0, []⟩, ⟨4/5, 0, 0, []⟩]).snrMax = 1) ∧
    (normalize true (Metric.mk (1/3) (1/2) 0 []).snr
        (computeRanges [Metric.mk (1/3) (1/2) 0 []]).snrMin
        (computeRanges [Metric.mk (1/3) (1/2) 0 []]).snrMax = 1/2 ∧
      normalize true (Metric.mk (1/3) (1/2) 0 []).complexity
        (computeRanges [Metric.mk (1/3) (1/2) 0 []]).compMin
        (computeRanges [Metric.mk (1/3) (1/2) 0 []]).compMax = 1/2) := by
  have h := ranges_literal_minmax_and_normalization [⟨1/5, 0, 0, []⟩]
    (List.cons_ne_nil _ _) (Metric.mk (1/3) (1/2) 0 [])
  exact ⟨h.2.2.2.2.1, h.2.2.2.2.2⟩

end TQA
